import Mathlib

/-!
Verification of the datamesh-manager MCP server's tool adapter layer
(`src/datamesh_manager_mcp/server.py`) against its specification.

The embedding models decoded JSON payloads as the inductive type `Value`
(mappings keep insertion order as association lists; numeric scalars are
not modelled, since no behaviour of the adapter depends on them and
floating point is outside the scope of this embedding).  Python dynamic
failures (`AttributeError`, `TypeError`) raised while formatting are
modelled with `Except String`; outcomes of the external
`DataMeshManagerClient` call are modelled with `Except PyExc`, where
`PyExc.valueError` is the configuration error (a `ValueError` in the
source) and `PyExc.otherExc` is any other exception.
-/

set_option maxHeartbeats 1000000

namespace DataMeshMCP

/-- A decoded JSON-like value: null, booleans, strings, sequences and
order-preserving mappings. -/
inductive Value where
  | null : Value
  | bool (b : Bool) : Value
  | str (s : String) : Value
  | seq (xs : List Value) : Value
  | map (kvs : List (String × Value)) : Value

/-- Python truthiness of a decoded value: `None`, `False`, the empty
string, the empty list and the empty dict are falsy. -/
def truthy : Value → Bool
  | .null => false
  | .bool b => b
  | .str s => s ≠ ""
  | .seq xs => !xs.isEmpty
  | .map kvs => !kvs.isEmpty

/-- Exceptions that the client construction or the client call can raise
into a tool operation: a `ValueError` (the configuration error) or any
other exception, each carrying its message. -/
inductive PyExc where
  | valueError (msg : String)
  | otherExc (msg : String)

/-- Python `d.get(k, default)`: on a dict, the first value stored under
`k`, else the default; on any other value an `AttributeError`. -/
def pyGetD (v : Value) (k : String) (d : Value) : Except String Value :=
  match v with
  | .map kvs => .ok ((kvs.lookup k).getD d)
  | _ => .error "AttributeError"

/-- Python `d.get(k)`, whose implicit default is `None`. -/
def pyGet (v : Value) (k : String) : Except String Value :=
  pyGetD v k .null

/-- Python `a or b` once both operands are values: the first operand when
truthy, else the second. -/
def pyOr (a b : Value) : Value :=
  if truthy a then a else b

/-- The chain `dp.get(k) or dp.get("info", \x7b\x7d).get(k) or "N/A"` used by
`dataproduct_list` (server.py lines 78-80) and for `description` by
`dataproduct_search` (line 120).  The second operand is only evaluated
when the first is falsy, as in Python. -/
def resolveNested (dp : Value) (k : String) : Except String Value := do
  let v1 ← pyGet dp k
  if truthy v1 then pure v1
  else
    let info ← pyGetD dp "info" (.map [])
    let v2 ← pyGet info k
    if truthy v2 then pure v2 else pure (.str "N/A")

/-- One `formatted_product` of `dataproduct_list` (server.py lines 76-81). -/
def formatProduct (dp : Value) : Except String Value := do
  let idV ← pyGetD dp "id" (.str "N/A")
  let nameV ← resolveNested dp "title"
  let descV ← resolveNested dp "description"
  let ownV ← resolveNested dp "owner"
  pure (.map [("id", idV), ("name", nameV), ("description", descV), ("owner", ownV)])

/-- One `formatted_product` of `dataproduct_search` (server.py lines 117-123). -/
def formatSearchProduct (dp : Value) : Except String Value := do
  let idV ← pyGetD dp "id" (.str "N/A")
  let nV ← pyGet dp "name"
  let descV ← resolveNested dp "description"
  let oidV ← pyGet dp "ownerId"
  let onV ← pyGet dp "ownerName"
  pure (.map [("id", idV), ("name", pyOr nV (.str "N/A")),
              ("description", descV), ("ownerId", pyOr oidV (.str "N/A")),
              ("ownerName", pyOr onV (.str "N/A"))])

/-- Python `for x in v`: lists iterate their elements, strings their
characters, dicts their keys; other values raise a `TypeError`. -/
def pyIter (v : Value) : Except String (List Value) :=
  match v with
  | .seq xs => .ok xs
  | .str s => .ok (s.data.map (fun c => .str ⟨[c]⟩))
  | .map kvs => .ok (kvs.map (fun kv => .str kv.1))
  | _ => .error "TypeError"

/-- The formatting loop of both list operations: format each record in
order, aborting the whole loop on the first exception (which the
enclosing `try` then converts into an error marker). -/
def mapExcept (f : Value → Except String Value) : List Value → Except String (List Value)
  | [] => .ok []
  | x :: xs => do
    let y ← f x
    let ys ← mapExcept f xs
    pure (y :: ys)

/-- The one-element error marker `[\x7b"error": msg\x7d]` that list/search
operations return on failure. -/
def errorRecord (m : String) : Value :=
  .map [("error", .str m)]

/-- The `dataproduct_list` tool (server.py lines 44-92), as a function of
the client outcome: the upstream call either returns the decoded list of
raw records, or raises. -/
def dataproduct_list (o : Except PyExc (List Value)) : List Value :=
  match o with
  | .error (.valueError m) => [errorRecord m]
  | .error (.otherExc m) => [errorRecord ("Error fetching data products: " ++ m)]
  | .ok dps =>
    if dps.isEmpty then []
    else
      match mapExcept formatProduct dps with
      | .ok fps => fps
      | .error m => [errorRecord ("Error fetching data products: " ++ m)]

/-- The body of `dataproduct_search` after the client call (server.py
lines 108-127): unwrap the `results` key, return `[]` when falsy, else
format each raw record. -/
def searchBody (sr : Value) : Except String (List Value) := do
  let resultsV ← pyGetD sr "results" (.seq [])
  if truthy resultsV then do
    let dps ← pyIter resultsV
    mapExcept formatSearchProduct dps
  else pure []

/-- The `dataproduct_search` tool (server.py lines 96-134), as a function
of the client outcome (the decoded search response, or an exception). -/
def dataproduct_search (o : Except PyExc Value) : List Value :=
  match o with
  | .error (.valueError m) => [errorRecord m]
  | .error (.otherExc m) => [errorRecord ("Error searching data products: " ++ m)]
  | .ok sr =>
    match searchBody sr with
    | .ok fps => fps
    | .error m => [errorRecord ("Error searching data products: " ++ m)]

/-- Escaping of one character inside a double-quoted scalar: backslash,
double quote and newline get a backslash escape, everything else stands
for itself. -/
def escChar (c : Char) : List Char :=
  if c = '\\' then ['\\', '\\']
  else if c = '"' then ['\\', '"']
  else if c = '\n' then ['\\', 'n']
  else [c]

/-- A string scalar rendered as a double-quoted token. -/
def quoteStr (s : String) : List Char :=
  '"' :: (s.data.map escChar).flatten ++ ['"']

/-- A value is scalar-like exactly when it has no elements to lay out in
block style: everything except non-empty sequences and mappings. -/
def isScalarV : Value → Bool
  | .seq (_ :: _) => false
  | .map (_ :: _) => false
  | _ => true

/-- The token for the scalar-like values: `null`, the booleans, quoted
strings, and the flow forms of the empty sequence and empty mapping
(which block style cannot express). -/
def scalarChars : Value → List Char
  | .null => "null".data
  | .bool true => "true".data
  | .bool false => "false".data
  | .str s => quoteStr s
  | .seq _ => "[]".data
  | .map _ => "\x7b\x7d".data

/-- One physical line of the block text: the number of leading spaces and
the content after them. -/
abbrev LineT := Nat × List Char

mutual

/-- Modelled from the spec: the block-structured serializer used by the
two get-by-id operations (in the source this is the external call
`yaml.dump(record, default_flow_style=False, sort_keys=False)`, which is
not part of this repository).  Per the spec it renders the record into
indented block lines, preserves key order as received, and uses no
flow-style inline collections for non-empty mappings/sequences.  A line
is produced per scalar entry; a nested non-empty mapping or sequence is
laid out on following lines indented two further columns. -/
def dumpLines (i : Nat) : Value → List LineT
  | .seq (x :: xs) => dumpItems i (x :: xs)
  | .map (kv :: kvs) => dumpEntries i (kv :: kvs)
  | v => [(i, scalarChars v)]

/-- Block lines of a sequence's items at indent `i`: a scalar item is
one dash line, a nested item is a dash line followed by its own block. -/
def dumpItems (i : Nat) : List Value → List LineT
  | [] => []
  | x :: xs =>
    (if isScalarV x then [(i, '-' :: ' ' :: scalarChars x)]
     else (i, ['-']) :: dumpLines (i + 2) x) ++ dumpItems i xs

/-- Block lines of a mapping's entries at indent `i`, preserving the
order of the association list. -/
def dumpEntries (i : Nat) : List (String × Value) → List LineT
  | [] => []
  | (k, x) :: kvs =>
    (if isScalarV x then [(i, quoteStr k ++ ':' :: ' ' :: scalarChars x)]
     else (i, quoteStr k ++ [':']) :: dumpLines (i + 2) x) ++ dumpEntries i kvs

end

/-- A run of `n` spaces. -/
def spaces : Nat → List Char
  | 0 => []
  | n + 1 => ' ' :: spaces n

/-- One rendered physical line: indentation, content, newline. -/
def renderLine (l : LineT) : List Char :=
  spaces l.1 ++ l.2 ++ ['\n']

/-- The rendered text of a list of lines. -/
def renderLines (ls : List LineT) : List Char :=
  (ls.map renderLine).flatten

/-- The serialized text of a record: its block lines starting at column
zero, each terminated by a newline. -/
def dumpText (v : Value) : String :=
  ⟨renderLines (dumpLines 0 v)⟩

/-- Undo `escChar` on a quoted scalar: read characters until the closing
double quote, decoding backslash escapes; returns the decoded string and
the characters after the closing quote. -/
def unescape : List Char → List Char → Option (String × List Char)
  | [], _ => none
  | c :: cs, acc =>
    if c = '"' then some (⟨acc.reverse⟩, cs)
    else if c = '\\' then
      match cs with
      | [] => none
      | e :: cs2 =>
        if e = '\\' then unescape cs2 ('\\' :: acc)
        else if e = '"' then unescape cs2 ('"' :: acc)
        else if e = 'n' then unescape cs2 ('\n' :: acc)
        else none
    else unescape cs (c :: acc)

/-- A generic reader of one scalar token. -/
def parseScalar (c : List Char) : Option Value :=
  if c = "null".data then some .null
  else if c = "true".data then some (.bool true)
  else if c = "false".data then some (.bool false)
  else if c = "[]".data then some (.seq [])
  else if c = "\x7b\x7d".data then some (.map [])
  else if c.head? = some '"' then
    match unescape c.tail [] with
    | some (s, []) => some (.str s)
    | _ => none
  else none

mutual

/-- A generic parser for the block text form, reading one value laid out
at indent `i` from the front of a line list; `fuel` bounds the recursion
depth and is in practice instantiated from the number of lines. -/
def parseBlock : Nat → Nat → List LineT → Option (Value × List LineT)
  | 0, _, _ => none
  | _ + 1, _, [] => none
  | fuel + 1, i, (j, c) :: rest =>
    if j ≠ i then none
    else if c = ['-'] || c.take 2 = ['-', ' '] then
      match parseItems fuel i ((j, c) :: rest) with
      | some (x :: xs, rest2) => some (.seq (x :: xs), rest2)
      | _ => none
    else if c.head? = some '"' then
      match unescape c.tail [] with
      | some (s, r) =>
        if r = [] then some (.str s, rest)
        else if r.head? = some ':' then
          match parseEntries fuel i ((j, c) :: rest) with
          | some (kv :: kvs, rest2) => some (.map (kv :: kvs), rest2)
          | _ => none
        else none
      | none => none
    else
      match parseScalar c with
      | some v => some (v, rest)
      | none => none

/-- Read consecutive sequence items (dash lines) at indent `i`, stopping
at the first line that is not such an item. -/
def parseItems : Nat → Nat → List LineT → Option (List Value × List LineT)
  | 0, _, _ => none
  | _ + 1, _, [] => some ([], [])
  | fuel + 1, i, (j, c) :: rest =>
    if j ≠ i then some ([], (j, c) :: rest)
    else if c = ['-'] then
      match parseBlock fuel (i + 2) rest with
      | some (x, rest2) =>
        match parseItems fuel i rest2 with
        | some (xs, rest3) => some (x :: xs, rest3)
        | none => none
      | none => none
    else if c.take 2 = ['-', ' '] then
      match parseScalar (c.drop 2) with
      | some x =>
        match parseItems fuel i rest with
        | some (xs, rest2) => some (x :: xs, rest2)
        | none => none
      | none => none
    else some ([], (j, c) :: rest)

/-- Read consecutive mapping entries (quoted-key lines) at indent `i`,
stopping at the first line that is not such an entry. -/
def parseEntries : Nat → Nat → List LineT → Option (List (String × Value) × List LineT)
  | 0, _, _ => none
  | _ + 1, _, [] => some ([], [])
  | fuel + 1, i, (j, c) :: rest =>
    if j ≠ i then some ([], (j, c) :: rest)
    else if c.head? = some '"' then
      match unescape c.tail [] with
      | some (k, r) =>
        if r = [':'] then
          match parseBlock fuel (i + 2) rest with
          | some (x, rest2) =>
            match parseEntries fuel i rest2 with
            | some (kvs, rest3) => some ((k, x) :: kvs, rest3)
            | none => none
          | none => none
        else if r.head? = some ':' && r.tail.head? = some ' ' then
          match parseScalar r.tail.tail with
          | some x =>
            match parseEntries fuel i rest with
            | some (kvs, rest2) => some ((k, x) :: kvs, rest2)
            | none => none
          | none => none
        else some ([], (j, c) :: rest)
      | none => some ([], (j, c) :: rest)
    else some ([], (j, c) :: rest)

end

/-- Split a physical line into its leading-space count and content. -/
def splitLine : List Char → LineT
  | [] => (0, [])
  | c :: cs =>
    if c = ' ' then
      let p := splitLine cs
      (p.1 + 1, p.2)
    else (0, c :: cs)

/-- Split a character stream at newlines; the accumulator holds the
current line read so far, reversed. -/
def splitLinesAux : List Char → List Char → List (List Char)
  | [], acc => [acc.reverse]
  | c :: cs, acc =>
    if c = '\n' then acc.reverse :: splitLinesAux cs []
    else splitLinesAux cs (c :: acc)

/-- Turn newline-split segments into lines: every line must be non-empty
(the final empty segment records the trailing newline of the text). -/
def toLines : List (List Char) → Option (List LineT)
  | [] => none
  | [] :: rest => match rest with | [] => some [] | _ => none
  | (c :: cs) :: rest => (toLines rest).map (fun ls => splitLine (c :: cs) :: ls)

/-- The generic parser for the serialized text form: split into indented
lines and read one block at column zero covering the whole text. -/
def parseText (s : String) : Option Value :=
  match toLines (splitLinesAux s.data []) with
  | none => none
  | some ls =>
    match parseBlock (2 * ls.length + 2) 0 ls with
    | some (v, []) => some v
    | _ => none

/-- The `dataproduct_get` tool (server.py lines 138-168), as a function
of the client outcome: the decoded record (`Value.null` models the
client's not-found absence indicator), or an exception. -/
def dataproduct_get (o : Except PyExc Value) : String :=
  match o with
  | .error (.valueError m) => "Error: " ++ m
  | .error (.otherExc m) => "Error fetching data product: " ++ m
  | .ok dp => if truthy dp then dumpText dp else "Data product not found"

/-- The `datacontract_get` tool (server.py lines 172-200). -/
def datacontract_get (o : Except PyExc Value) : String :=
  match o with
  | .error (.valueError m) => "Error: " ++ m
  | .error (.otherExc m) => "Error fetching data contract: " ++ m
  | .ok dc => if truthy dc then dumpText dc else "Data contract not found"

/-- The operation `dataproduct_get` instrumented with a flag recording whether the
serializer was invoked on the control path taken. -/
def dataproductGetTrace (o : Except PyExc Value) : String × Bool :=
  match o with
  | .error (.valueError m) => ("Error: " ++ m, false)
  | .error (.otherExc m) => ("Error fetching data product: " ++ m, false)
  | .ok dp => if truthy dp then (dumpText dp, true) else ("Data product not found", false)

/-- The operation `datacontract_get` instrumented with a flag recording whether the
serializer was invoked on the control path taken. -/
def datacontractGetTrace (o : Except PyExc Value) : String × Bool :=
  match o with
  | .error (.valueError m) => ("Error: " ++ m, false)
  | .error (.otherExc m) => ("Error fetching data contract: " ++ m, false)
  | .ok dc => if truthy dc then (dumpText dc, true) else ("Data contract not found", false)

/-- Look a candidate source path (a chain of keys) up in a raw record. -/
def lookupPath : Value → List String → Option Value
  | v, [] => some v
  | .map kvs, k :: ps =>
    match kvs.lookup k with
    | some v => lookupPath v ps
    | none => none
  | _, _ => none

/-- Follows the spec's words for the field-resolution policy: try the
ordered candidate source paths and take the first present and non-empty
(truthy) value; when none matches, the sentinel `"N/A"`. -/
def specResolve (dp : Value) : List (List String) → Value
  | [] => .str "N/A"
  | p :: ps =>
    match lookupPath dp p with
    | some v => if truthy v then v else specResolve dp ps
    | none => specResolve dp ps

/-- Presence-based defaulting for the `id` field: the stored value when
the key is present (even when empty), `"N/A"` only when absent. -/
def specId : Value → Value
  | .map kvs => (kvs.lookup "id").getD (.str "N/A")
  | _ => .str "N/A"

/-- A raw record is well-shaped for the nested-field chains when its
`info` entry, if present, is itself a mapping (otherwise the Python
source can raise an `AttributeError` while reading `info.*`). -/
def infoOK : Value → Bool
  | .map kvs =>
    match kvs.lookup "info" with
    | none => true
    | some (.map _) => true
    | some _ => false
  | _ => false

/-- Follows the spec's words for the search shape: the five output
fields, with `ownerId` and `ownerName` kept separate, each the record's
value when non-empty and the sentinel `"N/A"` otherwise. -/
def searchSpecFields (kvs : List (String × Value)) : List (String × Value) :=
  [("id", (kvs.lookup "id").getD (.str "N/A")),
   ("name", pyOr ((kvs.lookup "name").getD .null) (.str "N/A")),
   ("description", specResolve (.map kvs) [["description"], ["info", "description"]]),
   ("ownerId", pyOr ((kvs.lookup "ownerId").getD .null) (.str "N/A")),
   ("ownerName", pyOr ((kvs.lookup "ownerName").getD .null) (.str "N/A"))]

/-- Contents of serialized lines are non-empty, do not start with a
space, and contain no newline; this is what makes the rendered text
split back into the same lines. -/
def contentOK (c : List Char) : Prop :=
  c ≠ [] ∧ c.head? ≠ some ' ' ∧ '\n' ∉ c

/-- All lines of a block satisfy `contentOK`. -/
def linesOK (ls : List LineT) : Prop :=
  ∀ l ∈ ls, contentOK l.2

/-- The lines following a block are not mistakable for its continuation:
either there are none, or the next line is indented strictly less. -/
def restOK (i : Nat) : List LineT → Prop
  | [] => True
  | (j, _) :: _ => j < i

/-- The instrumented variant projects to `dataproduct_get`. -/
theorem dataproductGetTrace_fst (o : Except PyExc Value) :
    (dataproductGetTrace o).1 = dataproduct_get o := by
  cases o with
  | ok dp => simp only [dataproductGetTrace, dataproduct_get]; split <;> rfl
  | error e => cases e <;> rfl

/-- The instrumented variant projects to `datacontract_get`. -/
theorem datacontractGetTrace_fst (o : Except PyExc Value) :
    (datacontractGetTrace o).1 = datacontract_get o := by
  cases o with
  | ok dp => simp only [datacontractGetTrace, datacontract_get]; split <;> rfl
  | error e => cases e <;> rfl

/-- Binding a success in the `Except` monad applies the continuation. -/
theorem ok_bind {ε α β : Type} (a : α) (f : α → Except ε β) :
    (Except.ok a : Except ε α) >>= f = f a := rfl

/-- In the `Except` monad, `pure` is `Except.ok`. -/
theorem except_pure {ε α : Type} (a : α) :
    (pure a : Except ε α) = Except.ok a := rfl

/-- The value modelling Python `None` is falsy. -/
theorem truthy_null : truthy .null = false := rfl

/-- A well-shaped record's `info` entry is absent or a mapping. -/
theorem infoOK_cases (kvs : List (String × Value)) (h : infoOK (.map kvs) = true) :
    kvs.lookup "info" = none ∨ ∃ ikvs, kvs.lookup "info" = some (.map ikvs) := by
  simp only [infoOK] at h
  cases hl : kvs.lookup "info" with
  | none => exact Or.inl rfl
  | some v =>
    rw [hl] at h
    cases v with
    | map ikvs => exact Or.inr ⟨ikvs, rfl⟩
    | null => simp at h
    | bool b => simp at h
    | str s => simp at h
    | seq xs => simp at h

/-- On a well-shaped record the source's lazy `or`-chain for a nested
field computes exactly the spec's first-present-non-empty resolution over
the two candidate paths. -/
theorem resolveNested_spec (kvs : List (String × Value)) (k : String)
    (h : infoOK (.map kvs) = true) :
    resolveNested (.map kvs) k = .ok (specResolve (.map kvs) [[k], ["info", k]]) := by
  rcases infoOK_cases kvs h with h2 | ⟨ikvs, h2⟩
  · cases h1 : kvs.lookup k with
    | some v =>
      by_cases hv : truthy v = true
      · simp [resolveNested, pyGet, pyGetD, ok_bind, except_pure, h1, hv,
          specResolve, lookupPath, truthy_null]
      · rw [Bool.not_eq_true] at hv
        simp [resolveNested, pyGet, pyGetD, ok_bind, except_pure, h1, hv, h2,
          specResolve, lookupPath, truthy_null]
    | none =>
      simp [resolveNested, pyGet, pyGetD, ok_bind, except_pure, h1, h2,
        specResolve, lookupPath, truthy_null]
  · cases h1 : kvs.lookup k with
    | some v =>
      by_cases hv : truthy v = true
      · simp [resolveNested, pyGet, pyGetD, ok_bind, except_pure, h1, hv,
          specResolve, lookupPath, truthy_null]
      · rw [Bool.not_eq_true] at hv
        cases h3 : ikvs.lookup k with
        | some w =>
          by_cases hw : truthy w = true
          · simp [resolveNested, pyGet, pyGetD, ok_bind, except_pure, h1, hv, h2, h3, hw,
              specResolve, lookupPath, truthy_null]
          · rw [Bool.not_eq_true] at hw
            simp [resolveNested, pyGet, pyGetD, ok_bind, except_pure, h1, hv, h2, h3, hw,
              specResolve, lookupPath, truthy_null]
        | none =>
          simp [resolveNested, pyGet, pyGetD, ok_bind, except_pure, h1, hv, h2, h3,
            specResolve, lookupPath, truthy_null]
    | none =>
      cases h3 : ikvs.lookup k with
      | some w =>
        by_cases hw : truthy w = true
        · simp [resolveNested, pyGet, pyGetD, ok_bind, except_pure, h1, h2, h3, hw,
            specResolve, lookupPath, truthy_null]
        · rw [Bool.not_eq_true] at hw
          simp [resolveNested, pyGet, pyGetD, ok_bind, except_pure, h1, h2, h3, hw,
            specResolve, lookupPath, truthy_null]
      | none =>
        simp [resolveNested, pyGet, pyGetD, ok_bind, except_pure, h1, h2, h3,
          specResolve, lookupPath, truthy_null]

/-- Binding a failure in the `Except` monad short-circuits. -/
theorem error_bind {ε α β : Type} (e : ε) (f : α → Except ε β) :
    (Except.error e : Except ε α) >>= f = .error e := rfl

/-- A successful formatting loop yields one output per input. -/
theorem mapExcept_ok_length {f : Value → Except String Value}
    {xs ys : List Value} (h : mapExcept f xs = .ok ys) : ys.length = xs.length := by
  induction xs generalizing ys with
  | nil =>
    simp only [mapExcept] at h
    cases h
    rfl
  | cons x xs ih =>
    simp only [mapExcept] at h
    cases hfx : f x with
    | error e => rw [hfx, error_bind] at h; cases h
    | ok y =>
      rw [hfx, ok_bind] at h
      cases hm : mapExcept f xs with
      | error e => rw [hm, error_bind] at h; cases h
      | ok ys2 =>
        rw [hm, ok_bind, except_pure] at h
        cases h
        simp [ih hm]

/-- A successful formatting loop formats exactly the record at the same
position. -/
theorem mapExcept_ok_get {f : Value → Except String Value}
    {xs ys : List Value} (h : mapExcept f xs = .ok ys) :
    ∀ i (ha : i < xs.length) (hb : i < ys.length),
      f (xs.get ⟨i, ha⟩) = .ok (ys.get ⟨i, hb⟩) := by
  induction xs generalizing ys with
  | nil => intro i ha hb; exact absurd ha (by simp)
  | cons x xs ih =>
    simp only [mapExcept] at h
    cases hfx : f x with
    | error e => rw [hfx, error_bind] at h; cases h
    | ok y =>
      rw [hfx, ok_bind] at h
      cases hm : mapExcept f xs with
      | error e => rw [hm, error_bind] at h; cases h
      | ok ys2 =>
        rw [hm, ok_bind, except_pure] at h
        cases h
        intro i ha hb
        cases i with
        | zero => exact hfx
        | succ n => exact ih hm n (Nat.lt_of_succ_lt_succ ha) (Nat.lt_of_succ_lt_succ hb)

/-- C1 (amended): on a well-shaped raw record, `dataproduct_list`'s
normalizer resolves `name`, `description` and `owner` to the first
present and non-empty value among the ordered candidate paths (top-level
key, else the nested `info.*` key), treating an empty value as absent
and emitting `"N/A"` when no candidate matches; the `id` field instead
uses presence-based defaulting (the stored value even when empty,
`"N/A"` only when the key is absent). -/
theorem claim1_theorem (kvs : List (String × Value)) (h : infoOK (.map kvs) = true) :
    formatProduct (.map kvs) = .ok (.map [("id", specId (.map kvs)),
      ("name", specResolve (.map kvs) [["title"], ["info", "title"]]),
      ("description", specResolve (.map kvs) [["description"], ["info", "description"]]),
      ("owner", specResolve (.map kvs) [["owner"], ["info", "owner"]])]) := by
  simp [formatProduct, pyGetD, ok_bind, except_pure, specId,
    resolveNested_spec kvs "title" h,
    resolveNested_spec kvs "description" h,
    resolveNested_spec kvs "owner" h]

/-- C1 counterexample: a record whose `id` key holds the empty string is
normalized with `id` kept as the empty string, not the sentinel `"N/A"`
that the claim's first-present-and-non-empty policy would demand. -/
theorem claim1_counterexample :
    dataproduct_list (.ok [.map [("id", .str "")]]) =
      [.map [("id", .str ""), ("name", .str "N/A"), ("description", .str "N/A"),
        ("owner", .str "N/A")]] ∧
    Value.str "" ≠ Value.str "N/A" := by
  refine ⟨rfl, fun hx => absurd (Value.str.inj hx) (by decide)⟩

/-- C1 witness: the spec's own scenario record, evaluated. -/
theorem claim1_witness :
    formatProduct (.map [("id", .str "dp-1"), ("title", .str "Sales Data"),
      ("description", .str ""), ("owner", .str "team-a")]) =
    .ok (.map [("id", .str "dp-1"), ("name", .str "Sales Data"),
      ("description", .str "N/A"), ("owner", .str "team-a")]) :=
  (claim1_theorem [("id", .str "dp-1"), ("title", .str "Sales Data"),
    ("description", .str ""), ("owner", .str "team-a")] rfl).trans rfl

/-- C2 counterexample: a configuration error reaching `dataproduct_get`
is rendered with the `"Error: "` prefix, not as the bare message the
claim states for the get-by-id operations. -/
theorem claim2_counterexample :
    dataproduct_get (.error (.valueError "missing API key")) = "Error: missing API key" ∧
    ("Error: missing API key" : String) ≠ "missing API key" :=
  ⟨rfl, by decide⟩

/-- C2 (amended): a configuration error (`ValueError`) is rendered with
its own message, bare inside the one-element error record for the two
list operations, and with the fixed prefix `"Error: "` (distinct from
the operation-specific `"Error fetching ..."` prefixes used for other
exceptions) for the two get-by-id operations. -/
theorem claim2_theorem (m : String) :
    dataproduct_list (.error (.valueError m)) = [errorRecord m] ∧
    dataproduct_search (.error (.valueError m)) = [errorRecord m] ∧
    dataproduct_get (.error (.valueError m)) = "Error: " ++ m ∧
    datacontract_get (.error (.valueError m)) = "Error: " ++ m :=
  ⟨rfl, rfl, rfl, rfl⟩

/-- C3: every client outcome is mapped to a value of the operation's
declared result type: list/search always return a list that is empty, a
one-element error marker, or the successful formatting of the upstream
records; the get-by-id operations always return the not-found literal,
a prefixed error string, or the serialized record.  No case is left to
propagate an exception. -/
theorem claim3_theorem (o1 : Except PyExc (List Value)) (o2 o3 o4 : Except PyExc Value) :
    (dataproduct_list o1 = [] ∨ (∃ m, dataproduct_list o1 = [errorRecord m]) ∨
      ∃ dps, o1 = .ok dps ∧ mapExcept formatProduct dps = .ok (dataproduct_list o1)) ∧
    (dataproduct_search o2 = [] ∨ (∃ m, dataproduct_search o2 = [errorRecord m]) ∨
      ∃ sr, o2 = .ok sr ∧ searchBody sr = .ok (dataproduct_search o2)) ∧
    (dataproduct_get o3 = "Data product not found" ∨
      (∃ m, dataproduct_get o3 = "Error: " ++ m) ∨
      (∃ m, dataproduct_get o3 = "Error fetching data product: " ++ m) ∨
      ∃ dp, o3 = .ok dp ∧ dataproduct_get o3 = dumpText dp) ∧
    (datacontract_get o4 = "Data contract not found" ∨
      (∃ m, datacontract_get o4 = "Error: " ++ m) ∨
      (∃ m, datacontract_get o4 = "Error fetching data contract: " ++ m) ∨
      ∃ dc, o4 = .ok dc ∧ datacontract_get o4 = dumpText dc) := by
  refine ⟨?_, ?_, ?_, ?_⟩
  · cases o1 with
    | error e =>
      cases e with
      | valueError m => exact Or.inr (Or.inl ⟨m, rfl⟩)
      | otherExc m => exact Or.inr (Or.inl ⟨_, rfl⟩)
    | ok dps =>
      by_cases hd : dps.isEmpty = true
      · exact Or.inl (by simp [dataproduct_list, hd])
      · rw [Bool.not_eq_true] at hd
        cases hm : mapExcept formatProduct dps with
        | error m =>
          exact Or.inr (Or.inl ⟨"Error fetching data products: " ++ m,
            by simp [dataproduct_list, hd, hm]⟩)
        | ok fps => exact Or.inr (Or.inr ⟨dps, rfl, by simp [dataproduct_list, hd, hm]⟩)
  · cases o2 with
    | error e =>
      cases e with
      | valueError m => exact Or.inr (Or.inl ⟨m, rfl⟩)
      | otherExc m => exact Or.inr (Or.inl ⟨_, rfl⟩)
    | ok sr =>
      cases hb : searchBody sr with
      | error m =>
        exact Or.inr (Or.inl ⟨"Error searching data products: " ++ m,
          by simp [dataproduct_search, hb]⟩)
      | ok fps => exact Or.inr (Or.inr ⟨sr, rfl, by simp [dataproduct_search, hb]⟩)
  · cases o3 with
    | error e =>
      cases e with
      | valueError m => exact Or.inr (Or.inl ⟨m, rfl⟩)
      | otherExc m => exact Or.inr (Or.inr (Or.inl ⟨m, rfl⟩))
    | ok dp =>
      by_cases ht : truthy dp = true
      · exact Or.inr (Or.inr (Or.inr ⟨dp, rfl, by simp [dataproduct_get, ht]⟩))
      · rw [Bool.not_eq_true] at ht
        exact Or.inl (by simp [dataproduct_get, ht])
  · cases o4 with
    | error e =>
      cases e with
      | valueError m => exact Or.inr (Or.inl ⟨m, rfl⟩)
      | otherExc m => exact Or.inr (Or.inr (Or.inl ⟨m, rfl⟩))
    | ok dc =>
      by_cases ht : truthy dc = true
      · exact Or.inr (Or.inr (Or.inr ⟨dc, rfl, by simp [datacontract_get, ht]⟩))
      · rw [Bool.not_eq_true] at ht
        exact Or.inl (by simp [datacontract_get, ht])

/-- C4: on a falsy client record (the not-found outcome) the get-by-id
operations return exactly their not-found literal and take the control
path on which the serializer is not invoked. -/
theorem claim4_theorem (dp : Value) (h : truthy dp = false) :
    dataproductGetTrace (.ok dp) = ("Data product not found", false) ∧
    datacontractGetTrace (.ok dp) = ("Data contract not found", false) ∧
    dataproduct_get (.ok dp) = "Data product not found" ∧
    datacontract_get (.ok dp) = "Data contract not found" := by
  simp [dataproductGetTrace, datacontractGetTrace, dataproduct_get, datacontract_get, h]

/-- C4 witness at the client's absence indicator. -/
theorem claim4_witness :
    dataproductGetTrace (.ok .null) = ("Data product not found", false) ∧
    datacontractGetTrace (.ok .null) = ("Data contract not found", false) ∧
    dataproduct_get (.ok .null) = "Data product not found" ∧
    datacontract_get (.ok .null) = "Data contract not found" :=
  claim4_theorem .null rfl

/-- C5: every invocation whose upstream call succeeds with zero results
returns the empty sequence — never an error marker and never an absent
value.  For the list operation the zero-result outcome is the empty
record list; for the search operation it is any decoded response mapping
(metadata entries allowed alongside) whose `results` entry is absent or
the empty sequence. -/
theorem claim5_theorem :
    dataproduct_list (.ok []) = [] ∧
    ∀ (kvs : List (String × Value)),
      kvs.lookup "results" = none ∨ kvs.lookup "results" = some (.seq []) →
      dataproduct_search (.ok (.map kvs)) = [] := by
  refine ⟨rfl, ?_⟩
  intro kvs h
  rcases h with h | h <;>
    simp [dataproduct_search, searchBody, pyGetD, ok_bind, except_pure, h, truthy]

/-- C5 witness: a zero-result search response that carries metadata
alongside its empty `results` sequence. -/
theorem claim5_witness :
    dataproduct_search (.ok (.map [("results", Value.seq []),
      ("total", Value.str "0")])) = [] :=
  claim5_theorem.2 [("results", Value.seq []), ("total", Value.str "0")] (Or.inr rfl)

/-- C6: the search-shape normalizer emits the separate `ownerId` and
`ownerName` fields (each the record's value or `"N/A"`) and no combined
`owner` field. -/
theorem claim6_theorem (kvs : List (String × Value)) (h : infoOK (.map kvs) = true) :
    formatSearchProduct (.map kvs) = .ok (.map (searchSpecFields kvs)) ∧
    (searchSpecFields kvs).lookup "ownerId" =
      some (pyOr ((kvs.lookup "ownerId").getD .null) (.str "N/A")) ∧
    (searchSpecFields kvs).lookup "ownerName" =
      some (pyOr ((kvs.lookup "ownerName").getD .null) (.str "N/A")) ∧
    (searchSpecFields kvs).lookup "owner" = none := by
  refine ⟨?_, rfl, rfl, rfl⟩
  simp [formatSearchProduct, searchSpecFields, pyGet, pyGetD, ok_bind, except_pure,
    resolveNested_spec kvs "description" h]

/-- C6 witness on a concrete search record. -/
theorem claim6_witness :
    formatSearchProduct (.map [("id", Value.str "s1"), ("ownerId", Value.str "u1"),
      ("ownerName", Value.str "Team A")]) =
    .ok (.map [("id", Value.str "s1"), ("name", Value.str "N/A"),
      ("description", Value.str "N/A"), ("ownerId", Value.str "u1"),
      ("ownerName", Value.str "Team A")]) :=
  ((claim6_theorem [("id", Value.str "s1"), ("ownerId", Value.str "u1"),
    ("ownerName", Value.str "Team A")] rfl).1).trans rfl

/-- C8: when formatting succeeds, both list operations return exactly
one normalized record per raw record, in upstream order, each the
formatting of the raw record at the same position. -/
theorem claim8_theorem (dps fps rs gps : List Value)
    (h1 : mapExcept formatProduct dps = .ok fps)
    (h2 : mapExcept formatSearchProduct rs = .ok gps) :
    dataproduct_list (.ok dps) = fps ∧ fps.length = dps.length ∧
    (∀ i (ha : i < dps.length) (hb : i < fps.length),
      formatProduct (dps.get ⟨i, ha⟩) = .ok (fps.get ⟨i, hb⟩)) ∧
    dataproduct_search (.ok (.map [("results", .seq rs)])) = gps ∧
    gps.length = rs.length ∧
    (∀ i (ha : i < rs.length) (hb : i < gps.length),
      formatSearchProduct (rs.get ⟨i, ha⟩) = .ok (gps.get ⟨i, hb⟩)) := by
  refine ⟨?_, mapExcept_ok_length h1, mapExcept_ok_get h1, ?_,
    mapExcept_ok_length h2, mapExcept_ok_get h2⟩
  · cases dps with
    | nil =>
      simp only [mapExcept] at h1
      cases h1
      rfl
    | cons d ds => simp [dataproduct_list, h1]
  · cases rs with
    | nil =>
      simp only [mapExcept] at h2
      cases h2
      rfl
    | cons r rs2 =>
      simp [dataproduct_search, searchBody, pyGetD, pyIter, ok_bind, except_pure,
        truthy, h2]

/-- C8 witness on a concrete two-record upstream result. -/
theorem claim8_witness :
    dataproduct_list (.ok [.map [("id", Value.str "a")], .map [("id", Value.str "b")]]) =
      [.map [("id", Value.str "a"), ("name", Value.str "N/A"),
        ("description", Value.str "N/A"), ("owner", Value.str "N/A")],
       .map [("id", Value.str "b"), ("name", Value.str "N/A"),
        ("description", Value.str "N/A"), ("owner", Value.str "N/A")]] :=
  (claim8_theorem [.map [("id", Value.str "a")], .map [("id", Value.str "b")]]
    [.map [("id", Value.str "a"), ("name", Value.str "N/A"),
      ("description", Value.str "N/A"), ("owner", Value.str "N/A")],
     .map [("id", Value.str "b"), ("name", Value.str "N/A"),
      ("description", Value.str "N/A"), ("owner", Value.str "N/A")]]
    [] [] rfl rfl).1

/-- C9: every falsy client result — the absence indicator and equally an
existing-but-empty record — yields the not-found literal from the
get-by-id operations, making the two indistinguishable at the tool
boundary. -/
theorem claim9_theorem :
    dataproduct_get (.ok (.map [])) = "Data product not found" ∧
    dataproduct_get (.ok .null) = "Data product not found" ∧
    datacontract_get (.ok (.map [])) = "Data contract not found" ∧
    datacontract_get (.ok .null) = "Data contract not found" ∧
    dataproduct_get (.ok (.map [])) = dataproduct_get (.ok .null) ∧
    datacontract_get (.ok (.map [])) = datacontract_get (.ok .null) :=
  ⟨rfl, rfl, rfl, rfl, rfl, rfl⟩

/-- C10: in `dataproduct_list` the `id` field alone uses presence-based
defaulting: a present-but-empty `id` is kept as the empty string, while
`"N/A"` appears only when the key is absent — unlike the other fields,
where an empty string falls through to `"N/A"`. -/
theorem claim10_theorem :
    (∀ kvs, infoOK (.map kvs) = true → ∃ n d ow,
      formatProduct (.map kvs) = .ok (.map
        [("id", (kvs.lookup "id").getD (.str "N/A")),
         ("name", n), ("description", d), ("owner", ow)])) ∧
    formatProduct (.map [("id", .str ""), ("title", .str ""), ("owner", .str "x")]) =
      .ok (.map [("id", .str ""), ("name", .str "N/A"), ("description", .str "N/A"),
        ("owner", .str "x")]) ∧
    formatProduct (.map [("title", .str "t")]) =
      .ok (.map [("id", .str "N/A"), ("name", .str "t"), ("description", .str "N/A"),
        ("owner", .str "N/A")]) := by
  refine ⟨?_, rfl, rfl⟩
  intro kvs h
  refine ⟨specResolve (.map kvs) [["title"], ["info", "title"]],
    specResolve (.map kvs) [["description"], ["info", "description"]],
    specResolve (.map kvs) [["owner"], ["info", "owner"]], ?_⟩
  simp [formatProduct, pyGetD, ok_bind, except_pure,
    resolveNested_spec kvs "title" h,
    resolveNested_spec kvs "description" h,
    resolveNested_spec kvs "owner" h]

/-- C10 witness: a record with a present-but-empty id, evaluated through
the first component of the claim. -/
theorem claim10_witness : ∃ n d ow,
    formatProduct (.map [("id", Value.str "")]) =
      .ok (.map [("id", (([("id", Value.str "")] : List (String × Value)).lookup "id").getD
        (.str "N/A")), ("name", n), ("description", d), ("owner", ow)]) :=
  claim10_theorem.1 [("id", Value.str "")] rfl

/-- One step of `unescape`: the closing quote ends the scalar. -/
theorem unescape_close (acc rest : List Char) :
    unescape ('"' :: rest) acc = some (⟨acc.reverse⟩, rest) := by
  rw [unescape.eq_def]
  simp

/-- One step of `unescape`: an escaped backslash. -/
theorem unescape_bs (acc cs : List Char) :
    unescape ('\\' :: '\\' :: cs) acc = unescape cs ('\\' :: acc) := by
  rw [unescape.eq_def]
  simp

/-- One step of `unescape`: an escaped double quote. -/
theorem unescape_q (acc cs : List Char) :
    unescape ('\\' :: '"' :: cs) acc = unescape cs ('"' :: acc) := by
  rw [unescape.eq_def]
  simp

/-- One step of `unescape`: an escaped newline. -/
theorem unescape_nl (acc cs : List Char) :
    unescape ('\\' :: 'n' :: cs) acc = unescape cs ('\n' :: acc) := by
  rw [unescape.eq_def]
  simp

/-- One step of `unescape`: an unescaped ordinary character. -/
theorem unescape_plain (c : Char) (acc cs : List Char)
    (h1 : c ≠ '"') (h2 : c ≠ '\\') :
    unescape (c :: cs) acc = unescape cs (c :: acc) := by
  rw [unescape.eq_def]
  simp [h1, h2]

/-- Reading an escaped character stream up to a closing quote undoes the
escaping, appending the decoded characters after the accumulator. -/
theorem unescape_esc (l : List Char) : ∀ (acc rest : List Char),
    unescape ((l.map escChar).flatten ++ '"' :: rest) acc =
      some (⟨acc.reverse ++ l⟩, rest) := by
  induction l with
  | nil =>
    intro acc rest
    simp [unescape_close]
  | cons c l ih =>
    intro acc rest
    by_cases h1 : c = '\\'
    · subst h1
      have e1 : escChar '\\' = ['\\', '\\'] := rfl
      rw [List.map_cons, List.flatten_cons, e1]
      simp only [List.cons_append, List.append_assoc, List.nil_append]
      rw [unescape_bs, ih]
      simp
    · by_cases h2 : c = '"'
      · subst h2
        have e1 : escChar '"' = ['\\', '"'] := rfl
        rw [List.map_cons, List.flatten_cons, e1]
        simp only [List.cons_append, List.append_assoc, List.nil_append]
        rw [unescape_q, ih]
        simp
      · by_cases h3 : c = '\n'
        · subst h3
          have e1 : escChar '\n' = ['\\', 'n'] := rfl
          rw [List.map_cons, List.flatten_cons, e1]
          simp only [List.cons_append, List.append_assoc, List.nil_append]
          rw [unescape_nl, ih]
          simp
        · have e1 : escChar c = [c] := by simp [escChar, h1, h2, h3]
          rw [List.map_cons, List.flatten_cons, e1]
          simp only [List.singleton_append, List.cons_append, List.append_assoc]
          rw [unescape_plain c _ _ h2 h1, List.nil_append, ih]
          simp

/-- Reading a quoted scalar's body decodes the original string. -/
theorem unescape_quote (t : String) (rest : List Char) :
    unescape ((t.data.map escChar).flatten ++ '"' :: rest) [] = some (t, rest) := by
  rw [unescape_esc]
  rfl

/-- No scalar token is the bare-dash line. -/
theorem scalarChars_ne_dash (v : Value) : scalarChars v ≠ ['-'] := by
  cases v with
  | str s => simp [scalarChars, quoteStr]
  | bool b => cases b <;> decide
  | null => decide
  | seq xs => simp only [scalarChars]; decide
  | map kvs => simp only [scalarChars]; decide

/-- No scalar token starts with a dash-item marker. -/
theorem scalarChars_take2_ne (v : Value) : (scalarChars v).take 2 ≠ ['-', ' '] := by
  cases v with
  | str s => simp [scalarChars, quoteStr]
  | bool b => cases b <;> decide
  | null => decide
  | seq xs => simp only [scalarChars]; decide
  | map kvs => simp only [scalarChars]; decide

/-- The scalar reader inverts the scalar writer on scalar-like values. -/
theorem parseScalar_scalarChars (v : Value) (hs : isScalarV v = true) :
    parseScalar (scalarChars v) = some v := by
  cases v with
  | null => rfl
  | bool b => cases b <;> rfl
  | str s =>
    have hq : unescape ((s.data.map escChar).flatten ++ ['"']) [] = some (s, []) := by
      have := unescape_quote s []
      simpa using this
    simp [parseScalar, scalarChars, quoteStr, hq]
  | seq xs => cases xs with
    | nil => rfl
    | cons x xs => simp [isScalarV] at hs
  | map kvs => cases kvs with
    | nil => rfl
    | cons kv kvs => simp [isScalarV] at hs

/-- The tail of a rendered entry line is the escaped key body followed by
the closing quote and whatever follows the key. -/
theorem quoteStr_append_tail (k : String) (z : List Char) :
    (quoteStr k ++ z).tail = (k.data.map escChar).flatten ++ '"' :: z := by
  simp [quoteStr, List.append_assoc]

/-- Reading a block at a dash-headed first line parses a sequence. -/
theorem parseBlock_dash (f i : Nat) (c : List Char) (rest : List LineT)
    (hdash : c = ['-'] ∨ c.take 2 = ['-', ' ']) :
    parseBlock (f + 1) i ((i, c) :: rest) =
      match parseItems f i ((i, c) :: rest) with
      | some (x :: xs, rest2) => some (.seq (x :: xs), rest2)
      | _ => none := by
  simp only [parseBlock]
  rw [if_neg (by simp), if_pos (by rcases hdash with h | h <;> simp [h])]

/-- Reading a block at a quoted-key first line whose remainder after the key
starts with a colon reads a mapping. -/
theorem parseBlock_maphead (f i : Nat) (k : String) (z rest2 : List Char)
    (rest : List LineT) (hz : z = ':' :: rest2) :
    parseBlock (f + 1) i ((i, quoteStr k ++ z) :: rest) =
      match parseEntries f i ((i, quoteStr k ++ z) :: rest) with
      | some (kv :: kvs, rest3) => some (.map (kv :: kvs), rest3)
      | _ => none := by
  subst hz
  simp only [parseBlock]
  rw [if_neg (by simp)]
  rw [if_neg (by simp [quoteStr])]
  rw [if_pos (by simp [quoteStr])]
  rw [quoteStr_append_tail, unescape_esc]
  simp

/-- Item reading stops at a line with a different indent. -/
theorem parseItems_stop (f i j : Nat) (c : List Char) (rest : List LineT)
    (h : j ≠ i) :
    parseItems (f + 1) i ((j, c) :: rest) = some ([], (j, c) :: rest) := by
  simp only [parseItems]
  rw [if_pos (by simp [h])]

/-- Item reading at the end of the lines yields no items. -/
theorem parseItems_nil (f i : Nat) : parseItems (f + 1) i [] = some ([], []) := by
  simp [parseItems]

/-- Item reading on a bare dash reads a nested block and continues. -/
theorem parseItems_nested (f i : Nat) (rest : List LineT) :
    parseItems (f + 1) i ((i, ['-']) :: rest) =
      match parseBlock f (i + 2) rest with
      | some (x, rest2) =>
        match parseItems f i rest2 with
        | some (xs, rest3) => some (x :: xs, rest3)
        | none => none
      | none => none := by
  simp only [parseItems]
  rw [if_neg (by simp), if_pos (by simp)]

/-- Item reading on a dash-space line reads a scalar item and continues. -/
theorem parseItems_scalarline (f i : Nat) (t : List Char) (rest : List LineT) :
    parseItems (f + 1) i ((i, '-' :: ' ' :: t) :: rest) =
      match parseScalar t with
      | some x =>
        match parseItems f i rest with
        | some (xs, rest2) => some (x :: xs, rest2)
        | none => none
      | none => none := by
  simp only [parseItems]
  rw [if_neg (by simp), if_neg (by simp), if_pos (by simp)]
  simp

/-- Entry reading stops at a line with a different indent. -/
theorem parseEntries_stop (f i j : Nat) (c : List Char) (rest : List LineT)
    (h : j ≠ i) :
    parseEntries (f + 1) i ((j, c) :: rest) = some ([], (j, c) :: rest) := by
  simp only [parseEntries]
  rw [if_pos (by simp [h])]

/-- Entry reading at the end of the lines yields no entries. -/
theorem parseEntries_nil (f i : Nat) : parseEntries (f + 1) i [] = some ([], []) := by
  simp [parseEntries]

/-- Entry reading on a nested-entry line reads the key, a nested block,
and continues. -/
theorem parseEntries_nested (f i : Nat) (k : String) (rest : List LineT) :
    parseEntries (f + 1) i ((i, quoteStr k ++ [':']) :: rest) =
      match parseBlock f (i + 2) rest with
      | some (x, rest2) =>
        match parseEntries f i rest2 with
        | some (kvs, rest3) => some ((k, x) :: kvs, rest3)
        | none => none
      | none => none := by
  simp only [parseEntries]
  rw [if_neg (by simp), if_pos (by simp [quoteStr])]
  rw [quoteStr_append_tail, unescape_esc]
  simp

/-- Entry reading on a scalar-entry line reads the key and the scalar
after the colon and continues. -/
theorem parseEntries_scalarline (f i : Nat) (k : String) (t : List Char)
    (rest : List LineT) :
    parseEntries (f + 1) i ((i, quoteStr k ++ ':' :: ' ' :: t) :: rest) =
      match parseScalar t with
      | some x =>
        match parseEntries f i rest with
        | some (kvs, rest2) => some ((k, x) :: kvs, rest2)
        | none => none
      | none => none := by
  simp only [parseEntries]
  rw [if_neg (by simp), if_pos (by simp [quoteStr])]
  rw [quoteStr_append_tail, unescape_esc]
  simp

/-- Block reading recovers a scalar-like value from its token line. -/
theorem parseBlock_scalar (f i : Nat) (rest : List LineT) (v : Value)
    (hs : isScalarV v = true) :
    parseBlock (f + 1) i ((i, scalarChars v) :: rest) = some (v, rest) := by
  cases v with
  | str s =>
    simp only [scalarChars, parseBlock]
    rw [if_neg (by simp), if_neg (by simp [quoteStr]), if_pos (by simp [quoteStr])]
    have : (quoteStr s).tail = (s.data.map escChar).flatten ++ '"' :: [] := by
      simp [quoteStr]
    rw [this, unescape_esc]
    simp
  | null =>
    simp only [scalarChars, parseBlock]
    rw [if_neg (by simp), if_neg (by simp), if_neg (by simp)]
    rfl
  | bool b =>
    cases b <;>
    · simp only [scalarChars, parseBlock]
      rw [if_neg (by simp), if_neg (by simp), if_neg (by simp)]
      rfl
  | seq xs =>
    cases xs with
    | nil =>
      simp only [scalarChars, parseBlock]
      rw [if_neg (by simp), if_neg (by simp), if_neg (by simp)]
      rfl
    | cons x xs => simp [isScalarV] at hs
  | map kvs =>
    cases kvs with
    | nil =>
      simp only [scalarChars, parseBlock]
      rw [if_neg (by simp), if_neg (by simp), if_neg (by simp)]
      rfl
    | cons kv kvs => simp [isScalarV] at hs

/-- A non-empty sequence always produces at least one line. -/
theorem dumpItems_cons_ne (i : Nat) (x : Value) (xs : List Value) :
    dumpItems i (x :: xs) ≠ [] := by
  simp only [dumpItems]
  split <;> simp

/-- A non-empty mapping always produces at least one line. -/
theorem dumpEntries_cons_ne (i : Nat) (kv : String × Value)
    (kvs : List (String × Value)) : dumpEntries i (kv :: kvs) ≠ [] := by
  obtain ⟨k, x⟩ := kv
  simp only [dumpEntries]
  split <;> simp

/-- Every value serializes to at least one line. -/
theorem dumpLines_ne_nil (i : Nat) (v : Value) : dumpLines i v ≠ [] := by
  cases v with
  | seq xs =>
    cases xs with
    | nil => simp [dumpLines]
    | cons x xs => simp only [dumpLines]; exact dumpItems_cons_ne i x xs
  | map kvs =>
    cases kvs with
    | nil => simp [dumpLines]
    | cons kv kvs => simp only [dumpLines]; exact dumpEntries_cons_ne i kv kvs
  | null => simp [dumpLines]
  | bool b => simp [dumpLines]
  | str t => simp [dumpLines]

/-- A block boundary stays a boundary at deeper indents. -/
theorem restOK_mono {i j : Nat} (hij : i ≤ j) :
    ∀ {rest : List LineT}, restOK i rest → restOK j rest := by
  intro rest h
  cases rest with
  | nil => trivial
  | cons l r =>
    obtain ⟨a, b⟩ := l
    simp only [restOK] at h ⊢
    omega

/-- The lines after a nested item's block start with a shallower indent:
either the next item line at the parent indent or the parent's rest. -/
theorem restOK_items (i : Nat) (xs : List Value) {rest : List LineT}
    (hr : restOK i rest) : restOK (i + 2) (dumpItems i xs ++ rest) := by
  cases xs with
  | nil =>
    simp only [dumpItems, List.nil_append]
    exact restOK_mono (by omega) hr
  | cons x xs =>
    simp only [dumpItems]
    split
    · simp only [List.singleton_append, List.cons_append, restOK]
      omega
    · simp only [List.cons_append, restOK]
      omega

/-- The lines after a nested entry's block start with a shallower indent. -/
theorem restOK_entries (i : Nat) (kvs : List (String × Value)) {rest : List LineT}
    (hr : restOK i rest) : restOK (i + 2) (dumpEntries i kvs ++ rest) := by
  cases kvs with
  | nil =>
    simp only [dumpEntries, List.nil_append]
    exact restOK_mono (by omega) hr
  | cons kv kvs =>
    obtain ⟨k, x⟩ := kv
    simp only [dumpEntries]
    split
    · simp only [List.singleton_append, List.cons_append, restOK]
      omega
    · simp only [List.cons_append, restOK]
      omega

/-- The generic parser inverts the serializer line by line: with enough
fuel, reading a block at the indent it was written at returns exactly
the serialized value and leaves the following lines untouched. -/
theorem parse_dump (f : Nat) :
    (∀ (v : Value) (i : Nat) (rest : List LineT), restOK i rest →
      2 * (dumpLines i v ++ rest).length + 2 ≤ f →
      parseBlock f i (dumpLines i v ++ rest) = some (v, rest)) ∧
    (∀ (xs : List Value) (i : Nat) (rest : List LineT), restOK i rest →
      2 * (dumpItems i xs ++ rest).length + 1 ≤ f →
      parseItems f i (dumpItems i xs ++ rest) = some (xs, rest)) ∧
    (∀ (kvs : List (String × Value)) (i : Nat) (rest : List LineT), restOK i rest →
      2 * (dumpEntries i kvs ++ rest).length + 1 ≤ f →
      parseEntries f i (dumpEntries i kvs ++ rest) = some (kvs, rest)) := by
  induction f with
  | zero =>
    refine ⟨?_, ?_, ?_⟩ <;> (intro _ _ _ _ hb; omega)
  | succ f ih =>
    obtain ⟨ihB, ihI, ihE⟩ := ih
    refine ⟨?_, ?_, ?_⟩
    · intro v i rest hrest hbud
      cases v with
      | null =>
        simp only [dumpLines, List.singleton_append]
        exact parseBlock_scalar f i rest .null rfl
      | bool b =>
        simp only [dumpLines, List.singleton_append]
        exact parseBlock_scalar f i rest (.bool b) rfl
      | str t =>
        simp only [dumpLines, List.singleton_append]
        exact parseBlock_scalar f i rest (.str t) rfl
      | seq xs =>
        cases xs with
        | nil =>
          simp only [dumpLines, List.singleton_append]
          exact parseBlock_scalar f i rest (.seq []) rfl
        | cons x xs2 =>
          simp only [dumpLines] at hbud ⊢
          have hI := ihI (x :: xs2) i rest hrest (by omega)
          by_cases hs : isScalarV x = true
          · simp only [dumpItems, hs, if_true, List.singleton_append,
              List.cons_append] at hI ⊢
            rw [parseBlock_dash f i _ _ (Or.inr (by simp)), hI]
          · rw [Bool.not_eq_true] at hs
            simp only [dumpItems, hs, Bool.false_eq_true, if_false,
              List.cons_append] at hI ⊢
            rw [parseBlock_dash f i _ _ (Or.inl rfl), hI]
      | map kvs =>
        cases kvs with
        | nil =>
          simp only [dumpLines, List.singleton_append]
          exact parseBlock_scalar f i rest (.map []) rfl
        | cons kv kvs2 =>
          obtain ⟨k, x⟩ := kv
          simp only [dumpLines] at hbud ⊢
          have hE := ihE ((k, x) :: kvs2) i rest hrest (by omega)
          by_cases hs : isScalarV x = true
          · simp only [dumpEntries, hs, if_true, List.singleton_append,
              List.cons_append] at hE ⊢
            rw [parseBlock_maphead f i k (':' :: ' ' :: scalarChars x)
              (' ' :: scalarChars x) _ rfl, hE]
          · rw [Bool.not_eq_true] at hs
            simp only [dumpEntries, hs, Bool.false_eq_true, if_false,
              List.cons_append] at hE ⊢
            rw [parseBlock_maphead f i k [':'] [] _ rfl, hE]
    · intro xs i rest hrest hbud
      cases xs with
      | nil =>
        simp only [dumpItems, List.nil_append] at hbud ⊢
        cases rest with
        | nil => exact parseItems_nil f i
        | cons l rest2 =>
          obtain ⟨j, c⟩ := l
          have hj : j ≠ i := by
            simp only [restOK] at hrest
            omega
          exact parseItems_stop f i j c rest2 hj
      | cons x xs2 =>
        by_cases hs : isScalarV x = true
        · simp only [dumpItems, hs, if_true, List.singleton_append, List.cons_append,
            List.nil_append, List.length_cons, List.length_append] at hbud ⊢
          rw [parseItems_scalarline, parseScalar_scalarChars x hs]
          simp only [ihI xs2 i rest hrest (by simp [List.length_append]; omega)]
        · rw [Bool.not_eq_true] at hs
          simp only [dumpItems, hs, Bool.false_eq_true, if_false, List.cons_append,
            List.nil_append, List.append_assoc, List.length_cons,
            List.length_append] at hbud ⊢
          rw [parseItems_nested]
          have ha : 0 < (dumpLines (i + 2) x).length :=
            List.length_pos.mpr (dumpLines_ne_nil (i + 2) x)
          simp only [ihB x (i + 2) (dumpItems i xs2 ++ rest) (restOK_items i xs2 hrest)
            (by simp [List.length_append]; omega)]
          simp only [ihI xs2 i rest hrest (by simp [List.length_append]; omega)]
    · intro kvs i rest hrest hbud
      cases kvs with
      | nil =>
        simp only [dumpEntries, List.nil_append] at hbud ⊢
        cases rest with
        | nil => exact parseEntries_nil f i
        | cons l rest2 =>
          obtain ⟨j, c⟩ := l
          have hj : j ≠ i := by
            simp only [restOK] at hrest
            omega
          exact parseEntries_stop f i j c rest2 hj
      | cons kv kvs2 =>
        obtain ⟨k, x⟩ := kv
        by_cases hs : isScalarV x = true
        · simp only [dumpEntries, hs, if_true, List.singleton_append, List.cons_append,
            List.nil_append, List.length_cons, List.length_append] at hbud ⊢
          rw [parseEntries_scalarline, parseScalar_scalarChars x hs]
          simp only [ihE kvs2 i rest hrest (by simp [List.length_append]; omega)]
        · rw [Bool.not_eq_true] at hs
          simp only [dumpEntries, hs, Bool.false_eq_true, if_false, List.cons_append,
            List.nil_append, List.append_assoc, List.length_cons,
            List.length_append] at hbud ⊢
          rw [parseEntries_nested]
          have ha : 0 < (dumpLines (i + 2) x).length :=
            List.length_pos.mpr (dumpLines_ne_nil (i + 2) x)
          simp only [ihB x (i + 2) (dumpEntries i kvs2 ++ rest) (restOK_entries i kvs2 hrest)
            (by simp [List.length_append]; omega)]
          simp only [ihE kvs2 i rest hrest (by simp [List.length_append]; omega)]

/-- Escaping removes newlines. -/
theorem escChar_no_nl (c : Char) : '\n' ∉ escChar c := by
  unfold escChar
  split_ifs with h1 h2 h3
  · simp
  · simp
  · simp
  · simp only [List.mem_singleton]
    exact fun hh => h3 hh.symm

/-- A quoted scalar contains no newline. -/
theorem quoteStr_no_nl (t : String) : '\n' ∉ quoteStr t := by
  unfold quoteStr
  intro hmem
  rcases List.mem_cons.mp hmem with h | h2
  · exact absurd h (by decide)
  rcases List.mem_append.mp h2 with h3 | h4
  · rcases List.mem_flatten.mp h3 with ⟨l, hl, hcl⟩
    rcases List.mem_map.mp hl with ⟨a, ha, rfl⟩
    exact escChar_no_nl a hcl
  · rw [List.mem_singleton] at h4
    exact absurd h4 (by decide)

/-- No scalar token contains a newline. -/
theorem scalarChars_no_nl (v : Value) : '\n' ∉ scalarChars v := by
  cases v with
  | str t => exact quoteStr_no_nl t
  | bool b => cases b <;> decide
  | null => decide
  | seq xs => simp only [scalarChars]; decide
  | map kvs => simp only [scalarChars]; decide

/-- Every scalar token is non-empty. -/
theorem scalarChars_ne_nil (v : Value) : scalarChars v ≠ [] := by
  cases v with
  | str t => simp [scalarChars, quoteStr]
  | bool b => cases b <;> decide
  | null => decide
  | seq xs => simp only [scalarChars]; decide
  | map kvs => simp only [scalarChars]; decide

/-- No scalar token starts with a space. -/
theorem scalarChars_head (v : Value) : (scalarChars v).head? ≠ some ' ' := by
  cases v with
  | str t => simp [scalarChars, quoteStr]
  | bool b => cases b <;> decide
  | null => decide
  | seq xs => simp only [scalarChars]; decide
  | map kvs => simp only [scalarChars]; decide

/-- Scalar tokens are well-formed line contents. -/
theorem contentOK_scalar (v : Value) : contentOK (scalarChars v) :=
  ⟨scalarChars_ne_nil v, scalarChars_head v, scalarChars_no_nl v⟩

/-- Scalar item lines are well-formed. -/
theorem contentOK_item_scalar (x : Value) : contentOK ('-' :: ' ' :: scalarChars x) := by
  refine ⟨by simp, by simp, ?_⟩
  simp only [List.mem_cons]
  rintro (h | h | h)
  · exact absurd h (by decide)
  · exact absurd h (by decide)
  · exact scalarChars_no_nl x h

/-- The bare dash line is well-formed. -/
theorem contentOK_dash : contentOK ['-'] := ⟨by simp, by simp, by decide⟩

/-- Entry lines (key, colon, anything newline-free) are well-formed. -/
theorem contentOK_entry (k : String) (z : List Char) (hz : '\n' ∉ z) :
    contentOK (quoteStr k ++ z) := by
  refine ⟨by simp [quoteStr], by simp [quoteStr], ?_⟩
  simp only [List.mem_append]
  rintro (h | h)
  · exact quoteStr_no_nl k h
  · exact hz h

/-- Well-formedness of line lists splits over append. -/
theorem linesOK_append {A B : List LineT} (hA : linesOK A) (hB : linesOK B) :
    linesOK (A ++ B) := by
  intro l hl
  rcases List.mem_append.mp hl with h | h
  · exact hA l h
  · exact hB l h

/-- Every line the serializer emits is well-formed: non-empty content
that starts with a non-space and contains no newline. -/
theorem dump_linesOK (n : Nat) :
    (∀ (v : Value) (i : Nat), sizeOf v ≤ n → linesOK (dumpLines i v)) ∧
    (∀ (xs : List Value) (i : Nat), sizeOf xs ≤ n → linesOK (dumpItems i xs)) ∧
    (∀ (kvs : List (String × Value)) (i : Nat), sizeOf kvs ≤ n → linesOK (dumpEntries i kvs)) := by
  induction n using Nat.strong_induction_on with
  | _ n ih =>
    refine ⟨?_, ?_, ?_⟩
    · intro v i hn
      cases v with
      | seq xs =>
        cases xs with
        | nil =>
          intro l hl
          simp only [dumpLines, List.mem_singleton] at hl
          subst hl
          exact contentOK_scalar (.seq [])
        | cons x xs =>
          simp only [dumpLines]
          have hm : sizeOf (x :: xs) < n := by
            have h1 : sizeOf (Value.seq (x :: xs)) ≤ n := hn
            have h2 : sizeOf (Value.seq (x :: xs)) = 1 + sizeOf (x :: xs) := by simp
            omega
          exact (ih _ hm).2.1 (x :: xs) i le_rfl
      | map kvs =>
        cases kvs with
        | nil =>
          intro l hl
          simp only [dumpLines, List.mem_singleton] at hl
          subst hl
          exact contentOK_scalar (.map [])
        | cons kv kvs =>
          simp only [dumpLines]
          have hm : sizeOf (kv :: kvs) < n := by
            have h1 : sizeOf (Value.map (kv :: kvs)) ≤ n := hn
            have h2 : sizeOf (Value.map (kv :: kvs)) = 1 + sizeOf (kv :: kvs) := by simp
            omega
          exact (ih _ hm).2.2 (kv :: kvs) i le_rfl
      | null =>
        intro l hl
        simp only [dumpLines, List.mem_singleton] at hl
        subst hl
        exact contentOK_scalar .null
      | bool b =>
        intro l hl
        simp only [dumpLines, List.mem_singleton] at hl
        subst hl
        exact contentOK_scalar (.bool b)
      | str t =>
        intro l hl
        simp only [dumpLines, List.mem_singleton] at hl
        subst hl
        exact contentOK_scalar (.str t)
    · intro xs i hn
      cases xs with
      | nil => intro l hl; simp [dumpItems] at hl
      | cons x xs =>
        have hx : sizeOf x < n := by
          have : sizeOf (x :: xs) ≤ n := hn
          simp only [List.cons.sizeOf_spec] at this
          omega
        have hxs : sizeOf xs < n := by
          have : sizeOf (x :: xs) ≤ n := hn
          simp only [List.cons.sizeOf_spec] at this
          omega
        simp only [dumpItems]
        refine linesOK_append ?_ ((ih (sizeOf xs) hxs).2.1 xs i le_rfl)
        split
        · intro l hl
          simp only [List.mem_singleton] at hl
          subst hl
          exact contentOK_item_scalar x
        · intro l hl
          rcases List.mem_cons.mp hl with h | h
          · subst h; exact contentOK_dash
          · exact (ih (sizeOf x) hx).1 x (i + 2) le_rfl l h
    · intro kvs i hn
      cases kvs with
      | nil => intro l hl; simp [dumpEntries] at hl
      | cons kv kvs =>
        obtain ⟨k, x⟩ := kv
        have hx : sizeOf x < n := by
          have : sizeOf ((k, x) :: kvs) ≤ n := hn
          simp only [List.cons.sizeOf_spec, Prod.mk.sizeOf_spec] at this
          omega
        have hkvs : sizeOf kvs < n := by
          have : sizeOf ((k, x) :: kvs) ≤ n := hn
          simp only [List.cons.sizeOf_spec] at this
          omega
        simp only [dumpEntries]
        refine linesOK_append ?_ ((ih (sizeOf kvs) hkvs).2.2 kvs i le_rfl)
        split
        · intro l hl
          simp only [List.mem_singleton] at hl
          subst hl
          exact contentOK_entry k (':' :: ' ' :: scalarChars x) (by
            simp only [List.mem_cons]
            rintro (h | h | h)
            · exact absurd h (by decide)
            · exact absurd h (by decide)
            · exact scalarChars_no_nl x h)
        · intro l hl
          rcases List.mem_cons.mp hl with h | h
          · subst h
            exact contentOK_entry k [':'] (by decide)
          · exact (ih (sizeOf x) hx).1 x (i + 2) le_rfl l h

/-- Indentation contains no newline. -/
theorem spaces_no_nl (n : Nat) : '\n' ∉ spaces n := by
  induction n with
  | zero => simp [spaces]
  | succ n ih =>
    simp only [spaces, List.mem_cons]
    rintro (h | h)
    · exact absurd h (by decide)
    · exact ih h

/-- Splitting after a newline-free prefix cuts exactly at the newline. -/
theorem splitLinesAux_line (l : List Char) (h : '\n' ∉ l) :
    ∀ (rest acc : List Char), splitLinesAux (l ++ '\n' :: rest) acc =
      (acc.reverse ++ l) :: splitLinesAux rest [] := by
  induction l with
  | nil =>
    intro rest acc
    simp [splitLinesAux]
  | cons c l ih =>
    intro rest acc
    have hc : c ≠ '\n' := by
      intro hh
      exact h (by rw [hh]; exact List.mem_cons_self _ _)
    have hl : '\n' ∉ l := fun hh => h (List.mem_cons_of_mem c hh)
    simp only [List.cons_append, splitLinesAux, List.append_eq]
    rw [if_neg hc, ih hl rest (c :: acc)]
    simp

/-- Splitting the rendered text recovers each line's characters, plus
the final empty segment from the trailing newline. -/
theorem splitLinesAux_render : ∀ (ls : List LineT), linesOK ls →
    splitLinesAux (renderLines ls) [] =
      (ls.map fun l => spaces l.1 ++ l.2) ++ [[]] := by
  intro ls
  induction ls with
  | nil => intro _; simp [renderLines, splitLinesAux]
  | cons l ls ih =>
    intro h
    obtain ⟨i, c⟩ := l
    have hc : contentOK c := h (i, c) (List.mem_cons_self _ _)
    have hnl : '\n' ∉ spaces i ++ c := by
      intro hmem
      rcases List.mem_append.mp hmem with h1 | h1
      · exact spaces_no_nl i h1
      · exact hc.2.2 h1
    have hrest : linesOK ls := fun x hx => h x (List.mem_cons_of_mem _ hx)
    simp only [renderLines, List.map_cons, List.flatten_cons, renderLine] at ih ⊢
    rw [show spaces i ++ c ++ ['\n'] ++ (List.map renderLine ls).flatten =
        (spaces i ++ c) ++ '\n' :: (List.map renderLine ls).flatten by
      simp [List.append_assoc]]
    rw [splitLinesAux_line (spaces i ++ c) hnl, ih hrest]
    simp

/-- Reading back a rendered line recovers its indent and content. -/
theorem splitLine_spaces (n : Nat) (c : List Char) (hc : c.head? ≠ some ' ') :
    splitLine (spaces n ++ c) = (n, c) := by
  induction n with
  | zero =>
    cases c with
    | nil => rfl
    | cons d cs =>
      have hd : d ≠ ' ' := by
        intro hh
        exact hc (by rw [hh]; rfl)
      simp only [spaces, List.nil_append, splitLine]
      rw [if_neg hd]
  | succ n ih =>
    simp only [spaces, List.cons_append, splitLine, List.append_eq, if_true]
    rw [ih]

/-- Turning the split segments back into lines undoes rendering. -/
theorem toLines_render : ∀ (ls : List LineT), linesOK ls →
    toLines ((ls.map fun l => spaces l.1 ++ l.2) ++ [[]]) = some ls := by
  intro ls
  induction ls with
  | nil => intro _; rfl
  | cons l ls ih =>
    intro h
    obtain ⟨i, c⟩ := l
    have hc : contentOK c := h (i, c) (List.mem_cons_self _ _)
    have hrest : linesOK ls := fun x hx => h x (List.mem_cons_of_mem _ hx)
    have hne : spaces i ++ c ≠ [] := by
      intro hh
      exact hc.1 (List.append_eq_nil.mp hh).2
    obtain ⟨hd, tl, heq⟩ := List.exists_cons_of_ne_nil hne
    simp only [List.map_cons, List.cons_append]
    rw [heq]
    simp only [toLines]
    rw [ih hrest, ← heq, splitLine_spaces i c hc.2.1]
    rfl

/-- The serializer-then-parser round trip: the generic parser reads the
block text of any record back to exactly that record. -/
theorem parseText_dumpText (v : Value) : parseText (dumpText v) = some v := by
  have hOK : linesOK (dumpLines 0 v) := (dump_linesOK (sizeOf v)).1 v 0 le_rfl
  unfold parseText dumpText
  rw [show (⟨renderLines (dumpLines 0 v)⟩ : String).data =
      renderLines (dumpLines 0 v) from rfl]
  rw [splitLinesAux_render _ hOK, toLines_render _ hOK]
  have hp := (parse_dump (2 * (dumpLines 0 v).length + 2)).1 v 0 [] trivial
    (by simp)
  rw [List.append_nil] at hp
  simp only [hp]

/-- C7: a record successfully returned by a get-by-id operation comes
out serialized in the block text form, and re-parsing that text with
the generic parser reproduces the original record — structure and key
order included. -/
theorem claim7_theorem (dp : Value) (h : truthy dp = true) :
    parseText (dataproduct_get (.ok dp)) = some dp ∧
    parseText (datacontract_get (.ok dp)) = some dp := by
  simp only [dataproduct_get, datacontract_get, h, if_true]
  exact ⟨parseText_dumpText dp, parseText_dumpText dp⟩

/-- C7 witness: a concrete nested record round-trips through
`dataproduct_get` and the generic parser. -/
theorem claim7_witness :
    parseText (dataproduct_get (.ok (.map [("id", Value.str "dp-1"),
      ("info", .map [("title", .str "T"), ("ports", .seq [.str "a", .null])])]))) =
    some (.map [("id", Value.str "dp-1"),
      ("info", .map [("title", .str "T"), ("ports", .seq [.str "a", .null])])]) :=
  (claim7_theorem (.map [("id", Value.str "dp-1"),
    ("info", .map [("title", .str "T"), ("ports", .seq [.str "a", .null])])]) rfl).1

end DataMeshMCP
